import Mathlib

/-!
Shallow embedding of the core of a chromedriver updater: the `Version`
model, the nom-based text parsers, the remote version resolver, the
local driver discovery and the update decision.  Text is modelled as
`List Char`; a nom parser becomes a function `Input → Option (Input × α)`
where `none` is a parse error and `some (rest, a)` returns the remaining
input together with the parsed value, exactly as `IResult` does.  The
`u32` components of a version are modelled as `Nat`; the `u32` range
check performed by Rust's `str::parse::<u32>` is explicit in `from_dec`.
Filesystem existence, process output and HTTP transport are injected as
parameters, so the pure decision and parsing logic is verified as-is.
-/

namespace ChromeDriver

/-- Input text, as a list of characters. -/
abbrev Input := List Char

/-- Result of a parser: `none` on a parse error, otherwise the remaining
input paired with the parsed value (mirroring nom's `IResult`). -/
abbrev PResult (α : Type) := Option (Input × α)

/-- The `Version` struct: four `u32` components (major, minor, build,
patch), modelled as `Nat`; the `u32` bound `< 2^32` appears as a
hypothesis where relevant and is enforced by parsing. -/
structure Version where
  major : Nat
  minor : Nat
  build : Nat
  patch : Nat
deriving DecidableEq, Repr

/-- The character of one decimal digit (`48` is the code of `'0'`). -/
def digitCh (d : Nat) : Char := Char.ofNat (48 + d)

/-- Fuel-driven decimal rendering, most significant digit first. -/
def natToCharsAux : Nat → Nat → List Char
  | 0, _ => []
  | fuel + 1, n =>
    if n < 10 then [digitCh n]
    else natToCharsAux fuel (n / 10) ++ [digitCh (n % 10)]

/-- Decimal rendering of a natural number, as Rust's `Display` for `u32`
prints it: no sign, no leading zeros, `"0"` for zero. -/
def natToChars (n : Nat) : List Char := natToCharsAux (n + 1) n

/-- The `Display` implementation for `Version`:
`"{major}.{minor}.{build}.{patch}"`. -/
def render (v : Version) : Input :=
  natToChars v.major ++ '.' :: natToChars v.minor ++
    '.' :: natToChars v.build ++ '.' :: natToChars v.patch

/-- Numeric value of a run of decimal digit characters, most significant
first, as `u32::from_str` computes it. -/
def digitsToNat (ds : List Char) : Nat :=
  ds.foldl (fun acc c => 10 * acc + (c.toNat - 48)) 0

/-- The `from_dec` helper, i.e. `input.parse::<u32>()` applied to a run
of digits: the value when it fits in `u32`, a failure on overflow. -/
def from_dec (ds : List Char) : Option Nat :=
  if digitsToNat ds < 4294967296 then some (digitsToNat ds) else none

/-- nom's `digit1`: consumes the maximal nonempty run of ASCII digits,
failing when the input does not start with a digit. -/
def digit1 (input : Input) : PResult (List Char) :=
  if input.takeWhile Char.isDigit = [] then none
  else some (input.dropWhile Char.isDigit, input.takeWhile Char.isDigit)

/-- The `parse_dec` parser: `map_res(digit1, from_dec)` — a digit run
converted by the checked `u32` conversion, overflow failing the parser. -/
def parse_dec (input : Input) : PResult Nat :=
  match digit1 input with
  | none => none
  | some (rest, ds) =>
    match from_dec ds with
    | none => none
    | some n => some (rest, n)

/-- nom's `char(c)`: matches exactly the single character `c`. -/
def pchar (c : Char) (input : Input) : PResult Char :=
  match input with
  | [] => none
  | c2 :: rest => if c2 = c then some (rest, c) else none

/-- nom's `tag(t)`: matches exactly the literal `t` at the front. -/
def tag : Input → Input → PResult Unit
  | [], input => some (input, ())
  | _ :: _, [] => none
  | t :: ts, c :: cs => if c = t then tag ts cs else none

/-- The characters accepted by nom's `space0`: a space or a tab. -/
def isSpaceTab (c : Char) : Bool := c = ' ' || c = '\t'

/-- nom's `space0`: consumes the maximal (possibly empty) run of spaces
and tabs; it never fails. -/
def space0 (input : Input) : PResult (List Char) :=
  some (input.dropWhile isSpaceTab, input.takeWhile isSpaceTab)

/-- Sequencing of parsers, as nom's `tuple` chains its components: run
`p`, and on success feed the remaining input to `q` applied to the
value. -/
def pseq {α β : Type} (p : Input → PResult α) (q : α → Input → PResult β)
    (input : Input) : PResult β :=
  match p input with
  | none => none
  | some (rest, a) => q a rest

/-- `parse_version_numbers`: four unsigned decimal integers separated by
literal dots, not anchored to end of input (the leftover is returned). -/
def parse_version_numbers : Input → PResult Version :=
  pseq parse_dec fun major =>
  pseq (pchar '.') fun _ =>
  pseq parse_dec fun minor =>
  pseq (pchar '.') fun _ =>
  pseq parse_dec fun build =>
  pseq (pchar '.') fun _ =>
  pseq parse_dec fun patch =>
  fun input => some (input, ⟨major, minor, build, patch⟩)

/-- `parse_version_output`: the literal label `application`, then
`space0`, then the numeric core. -/
def parse_version_output (input : Input) (application : Input) : PResult Version :=
  pseq (tag application) (fun _ => pseq space0 fun _ => parse_version_numbers) input

/-- `parse_chromedriver_version_output`: label `"ChromeDriver"`. -/
def parse_chromedriver_version_output (input : Input) : PResult Version :=
  parse_version_output input "ChromeDriver".data

/-- `parse_chromium_version_output` (POSIX path): label
`"Google Chrome"`. -/
def parse_chromium_version_output (input : Input) : PResult Version :=
  parse_version_output input "Google Chrome".data

/-- The fixed preamble matched by `parse_wmic_version`. -/
def wmicPreamble : Input := "\r\r\n\r\r\nVersion=".data

/-- `parse_wmic_version` (Windows path): the fixed control-character
preamble and the `Version=` key, then the numeric core. -/
def parse_wmic_version (input : Input) : PResult Version :=
  pseq (tag wmicPreamble) (fun _ => parse_version_numbers) input

/-- The `must_update` decision: update when there is no current version,
or when any of the four components of the current version is strictly
below the corresponding component of the new version. -/
def must_update (current_version : Option Version) (new_version : Version) : Bool :=
  match current_version with
  | some current =>
    decide (current.major < new_version.major) ||
    decide (current.minor < new_version.minor) ||
    decide (current.build < new_version.build) ||
    decide (current.patch < new_version.patch)
  | none => true

/-- The `Error` enum of the tool; each payload is kept as the message
text it carries. -/
inductive Error where
  | ProgramDoesNotExist (path : Input)
  | CantRunProgram (path message : Input)
  | FailedToReadOutput (message : Input)
  | ParsingVersionFailed (message : Input)
  | RequestFailed (message : Input)
  | ZipExtractionFailed (message : Input)
deriving DecidableEq

/-- The URL requested by `get_required_driver_version`:
`"https://chromedriver.storage.googleapis.com/LATEST_RELEASE_{major}.{minor}.{build}"`. -/
def latest_release_url (chrome_version : Version) : Input :=
  "https://chromedriver.storage.googleapis.com/LATEST_RELEASE_".data ++
    natToChars chrome_version.major ++ '.' :: natToChars chrome_version.minor ++
    '.' :: natToChars chrome_version.build

/-- Modelled from the spec: the lookup key built from the browser's
major, minor and build components only, dot-separated, patch omitted. -/
def lookupKeySpec (chrome_version : Version) : Input :=
  natToChars chrome_version.major ++ '.' :: natToChars chrome_version.minor ++
    '.' :: natToChars chrome_version.build

/-- `get_required_driver_version`, with the blocking HTTP GET injected as
`http` (a transport failure is `Except.error` carrying its message): a
transport failure becomes `Error.RequestFailed`, a response that does not
parse as a bare numeric-core version becomes
`Error.ParsingVersionFailed`. -/
def get_required_driver_version (http : Input → Except Input Input)
    (chrome_version : Version) : Except Error Version :=
  match http (latest_release_url chrome_version) with
  | .error e => .error (.RequestFailed e)
  | .ok response =>
    match parse_version_numbers response with
    | some (_, version) => .ok version
    | none => .error (.ParsingVersionFailed response)

/-- `get_local_driver_version`, with the filesystem check of the joined
driver path abstracted as `driver_exists` and the launch of the driver
executable (`run_program`, which yields captured stdout or a launch
error) injected as `run_program`. -/
def get_local_driver_version (driver_exists : Bool)
    (run_program : Except Error Input) : Except Error (Option Version) :=
  if driver_exists then
    match run_program with
    | .error e => .error e
    | .ok stdout =>
      match parse_chromedriver_version_output stdout with
      | some (_, version) => .ok (some version)
      | none => .error (.ParsingVersionFailed stdout)
  else
    .ok none

/-- Does the text begin with a character satisfying `p`? -/
def headSat (p : Char → Bool) : Input → Bool
  | [] => false
  | c :: _ => p c

lemma digitCh_isDigit {d : Nat} (h : d < 10) : (digitCh d).isDigit = true := by
  interval_cases d <;> decide

lemma digitCh_val {d : Nat} (h : d < 10) : (digitCh d).toNat - 48 = d := by
  interval_cases d <;> decide

lemma digitsToNat_append_singleton (ds : List Char) (c : Char) :
    digitsToNat (ds ++ [c]) = 10 * digitsToNat ds + (c.toNat - 48) := by
  simp [digitsToNat, List.foldl_append]

lemma natToCharsAux_spec :
    ∀ fuel n, n < fuel →
      natToCharsAux fuel n ≠ [] ∧ (∀ c ∈ natToCharsAux fuel n, c.isDigit = true) ∧
        digitsToNat (natToCharsAux fuel n) = n := by
  intro fuel
  induction fuel with
  | zero => intro n h; exact absurd h (Nat.not_lt_zero n)
  | succ fuel ih =>
    intro n hn
    by_cases h10 : n < 10
    · simp only [natToCharsAux, if_pos h10]
      refine ⟨by simp, ?_, ?_⟩
      · intro c hc
        rw [List.mem_singleton] at hc
        subst hc
        exact digitCh_isDigit h10
      · have hv := digitCh_val h10
        simp only [digitsToNat, List.foldl_cons, List.foldl_nil]
        omega
    · simp only [natToCharsAux, if_neg h10]
      push_neg at h10
      have hdiv : n / 10 < n := Nat.div_lt_self (by omega) (by omega)
      obtain ⟨hne, hdig, hval⟩ := ih (n / 10) (by omega)
      refine ⟨by simp, ?_, ?_⟩
      · intro c hc
        rw [List.mem_append] at hc
        rcases hc with hc | hc
        · exact hdig c hc
        · rw [List.mem_singleton] at hc
          subst hc
          exact digitCh_isDigit (Nat.mod_lt _ (by omega))
      · rw [digitsToNat_append_singleton, hval,
          digitCh_val (Nat.mod_lt _ (by omega))]
        omega

lemma natToChars_spec (n : Nat) :
    natToChars n ≠ [] ∧ (∀ c ∈ natToChars n, c.isDigit = true) ∧
      digitsToNat (natToChars n) = n :=
  natToCharsAux_spec (n + 1) n (Nat.lt_succ_self n)

lemma takeWhile_append_eq {p : Char → Bool} :
    ∀ ds rest, (∀ c ∈ ds, p c = true) → headSat p rest = false →
      (ds ++ rest).takeWhile p = ds ∧ (ds ++ rest).dropWhile p = rest := by
  intro ds
  induction ds with
  | nil =>
    intro rest _ hr
    cases rest with
    | nil => exact ⟨rfl, rfl⟩
    | cons c cs =>
      simp only [headSat] at hr
      simp [List.takeWhile_cons, List.dropWhile_cons, hr]
  | cons d ds ih =>
    intro rest hds hr
    have hd : p d = true := hds d (List.mem_cons_self d ds)
    obtain ⟨ht, hdr⟩ := ih rest (fun c hc => hds c (List.mem_cons_of_mem d hc)) hr
    simp [List.takeWhile_cons, List.dropWhile_cons, hd, ht, hdr]

lemma digit1_sound {input rest : Input} {ds : List Char}
    (h : digit1 input = some (rest, ds)) :
    ds = input.takeWhile Char.isDigit ∧ rest = input.dropWhile Char.isDigit ∧ ds ≠ [] := by
  unfold digit1 at h
  by_cases he : input.takeWhile Char.isDigit = []
  · simp [he] at h
  · simp only [if_neg he, Option.some.injEq, Prod.mk.injEq] at h
    exact ⟨h.2.symm, h.1.symm, h.2 ▸ he⟩

lemma from_dec_sound {ds : List Char} {n : Nat} (h : from_dec ds = some n) :
    digitsToNat ds = n ∧ n < 4294967296 := by
  unfold from_dec at h
  split at h
  · cases h
    exact ⟨rfl, by assumption⟩
  · cases h

lemma parse_dec_append {n : Nat} (rest : Input) (hn : n < 4294967296)
    (hr : headSat Char.isDigit rest = false) :
    parse_dec (natToChars n ++ rest) = some (rest, n) := by
  obtain ⟨hne, hdig, hval⟩ := natToChars_spec n
  obtain ⟨ht, hd⟩ := takeWhile_append_eq (natToChars n) rest hdig hr
  simp [parse_dec, digit1, ht, hd, hne, from_dec, hval, hn]

lemma parse_dec_sound {input rest : Input} {n : Nat}
    (h : parse_dec input = some (rest, n)) :
    ∃ ds, ds ≠ [] ∧ (∀ c ∈ ds, c.isDigit = true) ∧ input = ds ++ rest ∧
      digitsToNat ds = n ∧ n < 4294967296 := by
  unfold parse_dec at h
  split at h
  · cases h
  · rename_i rest0 ds hd
    split at h
    · cases h
    · rename_i m hf
      simp only [Option.some.injEq, Prod.mk.injEq] at h
      obtain ⟨hrest, hm⟩ := h
      obtain ⟨hds, hrest0, hne⟩ := digit1_sound hd
      obtain ⟨hval, hlt⟩ := from_dec_sound hf
      subst hrest hm
      refine ⟨ds, hne, ?_, ?_, hval, hlt⟩
      · intro c hc
        rw [hds] at hc
        exact List.mem_takeWhile_imp hc
      · rw [hds, hrest0, List.takeWhile_append_dropWhile]

lemma parse_dec_overflow {input : Input}
    (h : 4294967296 ≤ digitsToNat (input.takeWhile Char.isDigit)) :
    parse_dec input = none := by
  unfold parse_dec digit1
  by_cases he : input.takeWhile Char.isDigit = []
  · simp [he]
  · simp [he, from_dec, Nat.not_lt_of_le h]

lemma pchar_self (c : Char) (rest : Input) : pchar c (c :: rest) = some (rest, c) := by
  simp [pchar]

lemma pchar_sound {c : Char} {input rest : Input} {x : Char}
    (h : pchar c input = some (rest, x)) : input = c :: rest := by
  cases input with
  | nil => simp [pchar] at h
  | cons c2 cs =>
    by_cases hc : c2 = c
    · subst hc
      rw [pchar_self] at h
      injection h with h2
      injection h2 with ha hb
      rw [ha]
    · simp [pchar, hc] at h

lemma pseq_eq {α β : Type} {p : Input → PResult α} {q : α → Input → PResult β}
    {input rest : Input} {a : α} (h : p input = some (rest, a)) :
    pseq p q input = q a rest := by
  unfold pseq
  rw [h]

lemma pseq_none {α β : Type} {p : Input → PResult α} {q : α → Input → PResult β}
    {input : Input} (h : p input = none) : pseq p q input = none := by
  unfold pseq
  rw [h]

lemma pseq_sound {α β : Type} {p : Input → PResult α} {q : α → Input → PResult β}
    {input : Input} {r : Input × β} (h : pseq p q input = some r) :
    ∃ rest a, p input = some (rest, a) ∧ q a rest = some r := by
  unfold pseq at h
  cases hp : p input with
  | none => rw [hp] at h; cases h
  | some pr =>
    obtain ⟨rest0, a0⟩ := pr
    rw [hp] at h
    exact ⟨rest0, a0, rfl, h⟩

lemma tag_eq_some_iff : ∀ (t input rest : Input), tag t input = some (rest, ()) ↔ input = t ++ rest := by
  intro t
  induction t with
  | nil =>
    intro input rest
    simp [tag]
  | cons c ts ih =>
    intro input rest
    cases input with
    | nil => simp [tag]
    | cons c2 cs =>
      by_cases hc : c2 = c
      · subst hc
        simp [tag, ih cs rest]
      · simp [tag, hc]

lemma tag_append (t rest : Input) : tag t (t ++ rest) = some (rest, ()) :=
  (tag_eq_some_iff t (t ++ rest) rest).mpr rfl

lemma isDigit_not_spaceTab {c : Char} (h : c.isDigit = true) : isSpaceTab c = false := by
  by_contra hs
  rw [Bool.not_eq_false, isSpaceTab, Bool.or_eq_true] at hs
  rcases hs with hs | hs
  · rw [decide_eq_true_iff] at hs
    subst hs
    exact absurd h (by decide)
  · rw [decide_eq_true_iff] at hs
    subst hs
    exact absurd h (by decide)

lemma headSat_dot (x : Input) : headSat Char.isDigit ('.' :: x) = false := rfl

lemma parse_version_numbers_render (v : Version) (t : Input)
    (h1 : v.major < 4294967296) (h2 : v.minor < 4294967296)
    (h3 : v.build < 4294967296) (h4 : v.patch < 4294967296)
    (ht : headSat Char.isDigit t = false) :
    parse_version_numbers (render v ++ t) = some (t, v) := by
  have e : render v ++ t =
      natToChars v.major ++ '.' :: (natToChars v.minor ++ '.' ::
        (natToChars v.build ++ '.' :: (natToChars v.patch ++ t))) := by
    simp [render, List.append_assoc]
  rw [e]
  have s4 := parse_dec_append (n := v.patch) t h4 ht
  have s3 := parse_dec_append (n := v.build) ('.' :: (natToChars v.patch ++ t)) h3 (headSat_dot _)
  have s2 := parse_dec_append (n := v.minor)
    ('.' :: (natToChars v.build ++ '.' :: (natToChars v.patch ++ t))) h2 (headSat_dot _)
  have s1 := parse_dec_append (n := v.major)
    ('.' :: (natToChars v.minor ++ '.' :: (natToChars v.build ++ '.' :: (natToChars v.patch ++ t))))
    h1 (headSat_dot _)
  simp only [parse_version_numbers, pseq, s1, s2, s3, s4, pchar_self]

lemma parse_version_numbers_sound {input rest : Input} {v : Version}
    (h : parse_version_numbers input = some (rest, v)) :
    ∃ d1 d2 d3 d4 : List Char,
      d1 ≠ [] ∧ d2 ≠ [] ∧ d3 ≠ [] ∧ d4 ≠ [] ∧
      (∀ c ∈ d1, c.isDigit = true) ∧ (∀ c ∈ d2, c.isDigit = true) ∧
      (∀ c ∈ d3, c.isDigit = true) ∧ (∀ c ∈ d4, c.isDigit = true) ∧
      input = d1 ++ '.' :: (d2 ++ '.' :: (d3 ++ '.' :: (d4 ++ rest))) ∧
      digitsToNat d1 = v.major ∧ digitsToNat d2 = v.minor ∧
      digitsToNat d3 = v.build ∧ digitsToNat d4 = v.patch ∧
      v.major < 4294967296 ∧ v.minor < 4294967296 ∧
      v.build < 4294967296 ∧ v.patch < 4294967296 := by
  unfold parse_version_numbers at h
  obtain ⟨r1, major, hp1, h⟩ := pseq_sound h
  obtain ⟨r2, _, hc1, h⟩ := pseq_sound h
  obtain ⟨r3, minor, hp2, h⟩ := pseq_sound h
  obtain ⟨r4, _, hc2, h⟩ := pseq_sound h
  obtain ⟨r5, build, hp3, h⟩ := pseq_sound h
  obtain ⟨r6, _, hc3, h⟩ := pseq_sound h
  obtain ⟨r7, patch, hp4, h⟩ := pseq_sound h
  simp only [Option.some.injEq, Prod.mk.injEq] at h
  obtain ⟨hr7, hv⟩ := h
  subst hr7 hv
  obtain ⟨d1, hne1, hdig1, he1, hval1, hlt1⟩ := parse_dec_sound hp1
  obtain ⟨d2, hne2, hdig2, he2, hval2, hlt2⟩ := parse_dec_sound hp2
  obtain ⟨d3, hne3, hdig3, he3, hval3, hlt3⟩ := parse_dec_sound hp3
  obtain ⟨d4, hne4, hdig4, he4, hval4, hlt4⟩ := parse_dec_sound hp4
  have hd1 := pchar_sound hc1
  have hd2 := pchar_sound hc2
  have hd3 := pchar_sound hc3
  refine ⟨d1, d2, d3, d4, hne1, hne2, hne3, hne4, hdig1, hdig2, hdig3, hdig4, ?_,
    hval1, hval2, hval3, hval4, hlt1, hlt2, hlt3, hlt4⟩
  rw [he1, hd1, he2, hd2, he3, hd3, he4]

lemma parse_version_numbers_head_digit {input rest : Input} {v : Version}
    (h : parse_version_numbers input = some (rest, v)) :
    headSat Char.isDigit input = true := by
  obtain ⟨d1, d2, d3, d4, hne1, _, _, _, hdig1, _, _, _, he, _⟩ :=
    parse_version_numbers_sound h
  cases d1 with
  | nil => exact absurd rfl hne1
  | cons c ds =>
    rw [he]
    exact hdig1 c (List.mem_cons_self c ds)

lemma parse_version_numbers_overflow {input : Input}
    (h : 4294967296 ≤ digitsToNat (input.takeWhile Char.isDigit)) :
    parse_version_numbers input = none := by
  unfold parse_version_numbers
  exact pseq_none (parse_dec_overflow h)

lemma space0_eq (input : Input) :
    space0 input = some (input.dropWhile isSpaceTab, input.takeWhile isSpaceTab) := rfl

lemma parse_version_output_sound {input label : Input} {r : Input × Version}
    (h : parse_version_output input label = some r) :
    ∃ ws rest1 : Input, input = label ++ (ws ++ rest1) ∧
      (∀ c ∈ ws, isSpaceTab c = true) ∧ parse_version_numbers rest1 = some r := by
  unfold parse_version_output at h
  obtain ⟨r0, u, htag, h⟩ := pseq_sound h
  obtain ⟨r1, ws, hsp, h⟩ := pseq_sound h
  cases u
  rw [space0_eq] at hsp
  injection hsp with hsp
  injection hsp with ha hb
  have hin : input = label ++ r0 := (tag_eq_some_iff label input r0).mp htag
  refine ⟨r0.takeWhile isSpaceTab, r0.dropWhile isSpaceTab, ?_, ?_, ?_⟩
  · rw [hin, List.takeWhile_append_dropWhile]
  · intro c hc
    exact List.mem_takeWhile_imp hc
  · rw [ha]
    exact h

lemma parse_version_output_complete {label ws rest1 rest : Input} {v : Version}
    (hws : ∀ c ∈ ws, isSpaceTab c = true)
    (hp : parse_version_numbers rest1 = some (rest, v)) :
    parse_version_output (label ++ (ws ++ rest1)) label = some (rest, v) := by
  have hhead : headSat isSpaceTab rest1 = false := by
    have hd := parse_version_numbers_head_digit hp
    cases rest1 with
    | nil => rfl
    | cons c cs => exact isDigit_not_spaceTab hd
  obtain ⟨ht, hdr⟩ := takeWhile_append_eq ws rest1 hws hhead
  have hsp0 : space0 (ws ++ rest1) = some (rest1, ws) := by
    rw [space0_eq, ht, hdr]
  simp only [parse_version_output, pseq_eq (tag_append label (ws ++ rest1)), pseq_eq hsp0]
  exact hp

lemma parse_wmic_sound {input : Input} {r : Input × Version}
    (h : parse_wmic_version input = some r) :
    ∃ rest : Input, input = wmicPreamble ++ rest ∧ parse_version_numbers rest = some r := by
  unfold parse_wmic_version at h
  obtain ⟨r0, u, htag, h⟩ := pseq_sound h
  cases u
  exact ⟨r0, (tag_eq_some_iff wmicPreamble input r0).mp htag, h⟩

/-- C1: `must_update` returns true for every required version when the
current version is absent; when present it returns true exactly when at
least one of the four components of the local version is strictly less
than the corresponding component of the required version, each compared
independently; it returns false exactly when the local version is
componentwise greater-or-equal (in particular on exact equality). -/
theorem must_update_componentwise_policy :
    (∀ nv : Version, must_update none nv = true) ∧
    (∀ cv nv : Version, must_update (some cv) nv = true ↔
      (cv.major < nv.major ∨ cv.minor < nv.minor ∨
        cv.build < nv.build ∨ cv.patch < nv.patch)) ∧
    (∀ v : Version, must_update (some v) v = false) ∧
    (∀ cv nv : Version, must_update (some cv) nv = false ↔
      (nv.major ≤ cv.major ∧ nv.minor ≤ cv.minor ∧
        nv.build ≤ cv.build ∧ nv.patch ≤ cv.patch)) := by
  refine ⟨fun nv => rfl, fun cv nv => ?_, fun v => ?_, fun cv nv => ?_⟩
  · simp [must_update]
    tauto
  · simp [must_update]
  · simp [must_update]
    omega

/-- C2: the version resolver's request URL ends in
`LATEST_RELEASE_{major}.{minor}.{build}` — the lookup key is built from
exactly the browser version's major, minor and build components, dot
separated, patch omitted; for `Version{91,0,4472,0}` the key is exactly
`"91.0.4472"`. -/
theorem latest_release_url_key :
    (∀ v : Version,
      ("LATEST_RELEASE_".data ++ lookupKeySpec v) <:+ latest_release_url v) ∧
    lookupKeySpec ⟨91, 0, 4472, 0⟩ = "91.0.4472".data := by
  constructor
  · intro v
    refine ⟨"https://chromedriver.storage.googleapis.com/".data, ?_⟩
    have hsplit :
        ("https://chromedriver.storage.googleapis.com/LATEST_RELEASE_".data : List Char) =
          "https://chromedriver.storage.googleapis.com/".data ++ "LATEST_RELEASE_".data := by
      decide
    simp [latest_release_url, lookupKeySpec, hsplit, List.append_assoc]
  · decide

/-- C3: textual round trip of the bare numeric-core grammar — for every
`Version` (with `u32` components) rendering then parsing succeeds,
returns exactly that version, and leaves as leftover exactly the trailing
text, provided the trailing text does not begin with a decimal digit
(empty leftover for no trailing text). -/
theorem parse_render_roundtrip :
    (∀ v : Version, v.major < 4294967296 → v.minor < 4294967296 →
      v.build < 4294967296 → v.patch < 4294967296 →
      parse_version_numbers (render v) = some ([], v)) ∧
    (∀ (v : Version) (t : Input), v.major < 4294967296 → v.minor < 4294967296 →
      v.build < 4294967296 → v.patch < 4294967296 →
      headSat Char.isDigit t = false →
      parse_version_numbers (render v ++ t) = some (t, v)) := by
  constructor
  · intro v h1 h2 h3 h4
    have h := parse_version_numbers_render v [] h1 h2 h3 h4 rfl
    rwa [List.append_nil] at h
  · intro v t h1 h2 h3 h4 ht
    exact parse_version_numbers_render v t h1 h2 h3 h4 ht

/-- Witness for C3 at `Version{89,0,4389,23}` with trailing `" (x)"`. -/
theorem parse_render_roundtrip_witness :
    parse_version_numbers (render ⟨89, 0, 4389, 23⟩) = some ([], ⟨89, 0, 4389, 23⟩) ∧
    parse_version_numbers (render ⟨89, 0, 4389, 23⟩ ++ " (x)".data) =
      some (" (x)".data, ⟨89, 0, 4389, 23⟩) :=
  ⟨parse_render_roundtrip.1 ⟨89, 0, 4389, 23⟩ (by decide) (by decide) (by decide) (by decide),
   parse_render_roundtrip.2 ⟨89, 0, 4389, 23⟩ " (x)".data
     (by decide) (by decide) (by decide) (by decide) (by decide)⟩

/-- C4 (counterexample): the labeled-version parser also succeeds when
the separator between label and numeric core is a tab rather than a
space — the input `"ChromeDriver\t89.0.4389.23"` is accepted although it
admits no decomposition into the label, a run of space characters and a
parsable numeric core, refuting the claimed exact characterization with
space characters only. -/
theorem parse_version_output_accepts_tab :
    (parse_version_output "ChromeDriver\t89.0.4389.23".data "ChromeDriver".data).isSome = true ∧
    ¬ ∃ ws rest1 : Input,
        "ChromeDriver\t89.0.4389.23".data = "ChromeDriver".data ++ (ws ++ rest1) ∧
        (∀ c ∈ ws, c = ' ') ∧ (parse_version_numbers rest1).isSome = true := by
  constructor
  · decide
  · rintro ⟨ws, rest1, heq, hws, hp⟩
    have hsplit : "ChromeDriver\t89.0.4389.23".data =
        "ChromeDriver".data ++ "\t89.0.4389.23".data := by decide
    rw [hsplit] at heq
    have htail : "\t89.0.4389.23".data = ws ++ rest1 := List.append_cancel_left heq
    cases ws with
    | nil =>
      rw [List.nil_append] at htail
      rw [← htail] at hp
      exact absurd hp (by decide)
    | cons c ws2 =>
      have hc : c = ' ' := hws c (List.mem_cons_self c ws2)
      have hx : ("\t89.0.4389.23".data : List Char) = '\t' :: "89.0.4389.23".data := by decide
      rw [hx, List.cons_append] at htail
      injection htail with h1 h2
      exact absurd (h1.trans hc) (by decide)

/-- C4 (amended): the labeled-version parser succeeds exactly on inputs
consisting of the expected literal label, zero or more space or tab
characters, and the four-part numeric core, with trailing text returned
as leftover; in particular the documented `ChromeDriver` output line
parses to `Version{89,0,4389,23}` with the parenthetical as leftover. -/
theorem parse_version_output_characterization :
    (∀ application input : Input,
      (parse_version_output input application).isSome = true ↔
        ∃ ws rest1 : Input, input = application ++ (ws ++ rest1) ∧
          (∀ c ∈ ws, isSpaceTab c = true) ∧
          (parse_version_numbers rest1).isSome = true) ∧
    parse_chromedriver_version_output
        "ChromeDriver 89.0.4389.23 (61b08ee2c50024bab004e48d2b1b083cdbdac579-refs/branch-heads/4389@\x7b#294\x7d)".data =
      some (" (61b08ee2c50024bab004e48d2b1b083cdbdac579-refs/branch-heads/4389@\x7b#294\x7d)".data,
        ⟨89, 0, 4389, 23⟩) := by
  constructor
  · intro application input
    constructor
    · intro h
      rw [Option.isSome_iff_exists] at h
      obtain ⟨r, hr⟩ := h
      obtain ⟨ws, rest1, he, hws, hp⟩ := parse_version_output_sound hr
      refine ⟨ws, rest1, he, hws, ?_⟩
      rw [hp]
      rfl
    · rintro ⟨ws, rest1, he, hws, hp⟩
      rw [Option.isSome_iff_exists] at hp
      obtain ⟨⟨rest, v⟩, hp⟩ := hp
      rw [he, parse_version_output_complete hws hp]
      rfl
  · decide

/-- C5: in the version resolver a transport failure is surfaced as
`RequestFailed` and a response that does not parse as a bare
numeric-core version is surfaced as `ParsingVersionFailed`; the two
error kinds are never equal, so the caller can always distinguish
them. -/
theorem resolver_error_kinds :
    (∀ (http : Input → Except Input Input) (v : Version) (e : Input),
      http (latest_release_url v) = .error e →
      get_required_driver_version http v = .error (.RequestFailed e)) ∧
    (∀ (http : Input → Except Input Input) (v : Version) (body : Input),
      http (latest_release_url v) = .ok body → parse_version_numbers body = none →
      get_required_driver_version http v = .error (.ParsingVersionFailed body)) ∧
    (∀ e s : Input, Error.RequestFailed e ≠ Error.ParsingVersionFailed s) := by
  refine ⟨?_, ?_, ?_⟩
  · intro http v e h
    unfold get_required_driver_version
    rw [h]
  · intro http v body h hp
    unfold get_required_driver_version
    rw [h]
    simp only [hp]
  · intro e s h
    exact Error.noConfusion h

/-- Witness for C5: a refused connection and an HTML error page produce
the two distinct error kinds. -/
theorem resolver_error_kinds_witness :
    get_required_driver_version (fun _ => .error "connection refused".data) ⟨91, 0, 4472, 0⟩ =
      .error (.RequestFailed "connection refused".data) ∧
    get_required_driver_version (fun _ => .ok "<html></html>".data) ⟨91, 0, 4472, 0⟩ =
      .error (.ParsingVersionFailed "<html></html>".data) :=
  ⟨resolver_error_kinds.1 _ _ _ rfl,
   resolver_error_kinds.2.1 _ _ _ rfl (by decide)⟩

/-- C6: local driver discovery — when the platform-specific driver
executable does not exist in the output directory the result is the
successful `Ok(None)`, whatever launching would have produced; only when
the file exists are the launch and parse steps attempted, a launch error
propagating as-is and an unparsable output becoming a
`ParsingVersionFailed` error. -/
theorem local_driver_discovery :
    (∀ run_program : Except Error Input,
      get_local_driver_version false run_program = .ok none) ∧
    (∀ e : Error, get_local_driver_version true (.error e) = .error e) ∧
    (∀ out : Input, parse_chromedriver_version_output out = none →
      get_local_driver_version true (.ok out) = .error (.ParsingVersionFailed out)) ∧
    (∀ (out rest : Input) (v : Version),
      parse_chromedriver_version_output out = some (rest, v) →
      get_local_driver_version true (.ok out) = .ok (some v)) := by
  refine ⟨fun r => rfl, fun e => rfl, ?_, ?_⟩
  · intro out h
    simp [get_local_driver_version, h]
  · intro out rest v h
    simp [get_local_driver_version, h]

/-- Witness for C6: absent file yields `Ok(None)`; with the file
present, a launch error is fatal, garbage output is a parse error and a
well-formed self-report parses. -/
theorem local_driver_discovery_witness :
    get_local_driver_version false (.ok "x".data) = .ok none ∧
    get_local_driver_version true (.error (.CantRunProgram "chromedriver".data "denied".data)) =
      .error (.CantRunProgram "chromedriver".data "denied".data) ∧
    get_local_driver_version true (.ok "garbage".data) =
      .error (.ParsingVersionFailed "garbage".data) ∧
    get_local_driver_version true (.ok "ChromeDriver 89.0.4389.23".data) =
      .ok (some ⟨89, 0, 4389, 23⟩) :=
  ⟨local_driver_discovery.1 _, local_driver_discovery.2.1 _,
   local_driver_discovery.2.2.1 _ (by decide),
   local_driver_discovery.2.2.2 "ChromeDriver 89.0.4389.23".data [] ⟨89, 0, 4389, 23⟩ (by decide)⟩

/-- C7: the Windows key-value query parser succeeds exactly on inputs
that begin with the fixed preamble `"\r\r\n\r\r\n"` immediately followed
by the literal `"Version="` and then the four-part numeric core; any
other input fails. -/
theorem parse_wmic_characterization :
    wmicPreamble = "\r\r\n\r\r\n".data ++ "Version=".data ∧
    ∀ input : Input, (parse_wmic_version input).isSome = true ↔
      ∃ rest : Input, input = wmicPreamble ++ rest ∧
        (parse_version_numbers rest).isSome = true := by
  refine ⟨by decide, ?_⟩
  intro input
  constructor
  · intro h
    rw [Option.isSome_iff_exists] at h
    obtain ⟨r, hr⟩ := h
    obtain ⟨rest, he, hp⟩ := parse_wmic_sound hr
    refine ⟨rest, he, ?_⟩
    rw [hp]
    rfl
  · rintro ⟨rest, he, hp⟩
    rw [Option.isSome_iff_exists] at hp
    obtain ⟨r, hp⟩ := hp
    rw [he]
    unfold parse_wmic_version
    rw [pseq_eq (tag_append wmicPreamble rest)]
    show (parse_version_numbers rest).isSome = true
    rw [hp]
    rfl

/-- C8: no parser partially succeeds with defaulted components —
whenever `parse_dec` or `parse_version_numbers` returns a value, every
returned component is the numeric value of a nonempty digit run actually
read from the input at its position, and the input is exactly those runs
(dot-separated for the four-component parser) followed by the returned
leftover. -/
theorem parsers_read_all_components :
    (∀ (input rest : Input) (n : Nat), parse_dec input = some (rest, n) →
      ∃ ds, ds ≠ [] ∧ (∀ c ∈ ds, c.isDigit = true) ∧
        input = ds ++ rest ∧ digitsToNat ds = n) ∧
    (∀ (input rest : Input) (v : Version),
      parse_version_numbers input = some (rest, v) →
      ∃ d1 d2 d3 d4 : List Char,
        d1 ≠ [] ∧ d2 ≠ [] ∧ d3 ≠ [] ∧ d4 ≠ [] ∧
        (∀ c ∈ d1, c.isDigit = true) ∧ (∀ c ∈ d2, c.isDigit = true) ∧
        (∀ c ∈ d3, c.isDigit = true) ∧ (∀ c ∈ d4, c.isDigit = true) ∧
        input = d1 ++ '.' :: (d2 ++ '.' :: (d3 ++ '.' :: (d4 ++ rest))) ∧
        digitsToNat d1 = v.major ∧ digitsToNat d2 = v.minor ∧
        digitsToNat d3 = v.build ∧ digitsToNat d4 = v.patch) := by
  constructor
  · intro input rest n h
    obtain ⟨ds, h1, h2, h3, h4, _⟩ := parse_dec_sound h
    exact ⟨ds, h1, h2, h3, h4⟩
  · intro input rest v h
    obtain ⟨d1, d2, d3, d4, a1, a2, a3, a4, b1, b2, b3, b4, he, c1, c2, c3, c4, _⟩ :=
      parse_version_numbers_sound h
    exact ⟨d1, d2, d3, d4, a1, a2, a3, a4, b1, b2, b3, b4, he, c1, c2, c3, c4⟩

/-- Witness for C8 on `"42abc"` (single component) and `"89.0.4389.23"`
(all four components). -/
theorem parsers_read_all_components_witness :
    (∃ ds, ds ≠ [] ∧ (∀ c ∈ ds, c.isDigit = true) ∧
      ("42abc".data : Input) = ds ++ "abc".data ∧ digitsToNat ds = 42) ∧
    (∃ d1 d2 d3 d4 : List Char,
      d1 ≠ [] ∧ d2 ≠ [] ∧ d3 ≠ [] ∧ d4 ≠ [] ∧
      (∀ c ∈ d1, c.isDigit = true) ∧ (∀ c ∈ d2, c.isDigit = true) ∧
      (∀ c ∈ d3, c.isDigit = true) ∧ (∀ c ∈ d4, c.isDigit = true) ∧
      ("89.0.4389.23".data : Input) =
        d1 ++ '.' :: (d2 ++ '.' :: (d3 ++ '.' :: (d4 ++ ([] : Input)))) ∧
      digitsToNat d1 = (Version.mk 89 0 4389 23).major ∧
      digitsToNat d2 = (Version.mk 89 0 4389 23).minor ∧
      digitsToNat d3 = (Version.mk 89 0 4389 23).build ∧
      digitsToNat d4 = (Version.mk 89 0 4389 23).patch) :=
  ⟨parsers_read_all_components.1 "42abc".data "abc".data 42 (by decide),
   parsers_read_all_components.2 "89.0.4389.23".data [] ⟨89, 0, 4389, 23⟩ (by decide)⟩

/-- C9: the numeric-core parser accepts leading zeros, so parsing is not
the exact inverse of rendering: `"089.0.4389.23"` parses to
`Version{89,0,4389,23}` whose rendering is `"89.0.4389.23"`, different
from the consumed text. -/
theorem parse_leading_zeros :
    parse_version_numbers "089.0.4389.23".data = some ([], ⟨89, 0, 4389, 23⟩) ∧
    render ⟨89, 0, 4389, 23⟩ = "89.0.4389.23".data ∧
    render ⟨89, 0, 4389, 23⟩ ≠ "089.0.4389.23".data :=
  ⟨by decide, by decide, by decide⟩

/-- C10: each component is bounded by the `u32` range — a digit run
whose value is at least `2^32` makes the component parser, and hence the
whole numeric-core parser, fail outright (no wrapping, no truncation),
and every component a successful parse returns is below `2^32`. -/
theorem parse_checked_u32_bounds :
    (∀ input : Input, 4294967296 ≤ digitsToNat (input.takeWhile Char.isDigit) →
      parse_dec input = none) ∧
    (∀ input : Input, 4294967296 ≤ digitsToNat (input.takeWhile Char.isDigit) →
      parse_version_numbers input = none) ∧
    (∀ (input rest : Input) (v : Version),
      parse_version_numbers input = some (rest, v) →
      v.major < 4294967296 ∧ v.minor < 4294967296 ∧
        v.build < 4294967296 ∧ v.patch < 4294967296) := by
  refine ⟨fun input h => parse_dec_overflow h,
    fun input h => parse_version_numbers_overflow h, ?_⟩
  intro input rest v h
  obtain ⟨d1, d2, d3, d4, _, _, _, _, _, _, _, _, _, _, _, _, _, hlt⟩ :=
    parse_version_numbers_sound h
  exact hlt

/-- Witness for C10: the first value beyond `u32::MAX` is rejected, and
a successful parse has bounded components. -/
theorem parse_checked_u32_bounds_witness :
    parse_dec "4294967296".data = none ∧
    parse_version_numbers "4294967296.0.0.0".data = none ∧
    ((Version.mk 1 2 3 4).major < 4294967296 ∧ (Version.mk 1 2 3 4).minor < 4294967296 ∧
      (Version.mk 1 2 3 4).build < 4294967296 ∧ (Version.mk 1 2 3 4).patch < 4294967296) :=
  ⟨parse_checked_u32_bounds.1 _ (by decide),
   parse_checked_u32_bounds.2.1 _ (by decide),
   parse_checked_u32_bounds.2.2 "1.2.3.4".data [] _ (by decide)⟩

end ChromeDriver
